import Mathlib

/-!
Shallow embedding of the mention-ingestion / scoring pipeline of
`src/leaderboard-boosted.ts` (the FlexXAI leaderboard core), together with
proofs and refutations of the specification's claims about it.

Modelling conventions:
* JavaScript numbers are modelled by `ℚ` (the scoring arithmetic is exact
  rational arithmetic on the values involved);
* `created_at` ISO strings are modelled by their epoch value
  (`new Date(s).getTime()`) as an `ℤ`, since the code only ever compares
  those values;
* `Array.prototype.sort` with comparator `(a, b) => k b - k a` is a stable
  descending sort, which is modelled by Mathlib's stable `insertionSort`
  with the relation `k b ≤ k a` (for a total preorder a stable sort's
  output is unique, so this is the same list the source computes);
* upstream responses are modelled by the list of pages the paging loop
  would receive: each page carries raw tweet rows, raw user rows and
  whether a `next_token` was present;
* fields absent / non-numeric in the upstream payload are modelled with
  `Option` (`none` = missing), matching the `safeNumber` coercion.
-/

/-- A canonical mention record (`interface Tweet` in the source). -/
structure Tweet where
  id : String
  username : String
  follower_count : ℚ
  created_at : ℤ
  likes : ℚ
  retweets : ℚ
  text : String
  url : String
  deriving DecidableEq, Repr

/-- A raw tweet row of an upstream response page (`responseData.data[i]`). -/
structure RawTweet where
  id : String
  author_id : String
  created_at : ℤ
  like_count : Option ℚ
  retweet_count : Option ℚ
  text : String
  deriving DecidableEq, Repr

/-- A raw user row of an upstream response page (`includes.users[i]`). -/
structure RawUser where
  id : String
  username : String
  follower_count : Option ℚ
  deriving DecidableEq, Repr

/-- One upstream response page: tweet rows, user rows, and whether the page
carried a `meta.next_token` continuation cursor. -/
structure Page where
  data : List RawTweet
  users : List RawUser
  hasNext : Bool
  deriving DecidableEq, Repr

/-- The `safeNumber` coercion of the source: null/undefined/non-numeric coerce to 0. -/
def safeNumber (v : Option ℚ) : ℚ := v.getD 0

/-- The accumulation loop of `fetchTwitterMentions`: pages are consumed one
at a time; after processing the `n+1`-st page the loop continues exactly when
the page had a `next_token` and fewer than `maxPages = 10` pages were
processed.  Returns the accumulated `allTweets` and `allUsers`. -/
def collectPages : List Page → ℕ → List RawTweet × List RawUser
  | [], _ => ([], [])
  | p :: ps, n =>
    if p.hasNext ∧ n + 1 < 10 then
      let rest := collectPages ps (n + 1)
      (p.data ++ rest.1, p.users ++ rest.2)
    else
      (p.data, p.users)

/-- The join step of `fetchTwitterMentions`: a raw tweet is joined to its
author by `author_id`; `author?.username || 'unknown'` makes a missing author
or an empty username the sentinel `"unknown"`. -/
def processTweet (allUsers : List RawUser) (tw : RawTweet) : Tweet :=
  match allUsers.find? (fun u => decide (u.id = tw.author_id)) with
  | some author =>
    { id := tw.id
      username := if author.username = "" then "unknown" else author.username
      follower_count := safeNumber author.follower_count
      created_at := tw.created_at
      likes := safeNumber tw.like_count
      retweets := safeNumber tw.retweet_count
      text := tw.text
      url := "https://twitter.com/" ++ author.username ++ "/status/" ++ tw.id }
  | none =>
    { id := tw.id
      username := "unknown"
      follower_count := 0
      created_at := tw.created_at
      likes := safeNumber tw.like_count
      retweets := safeNumber tw.retweet_count
      text := tw.text
      url := "https://twitter.com/undefined/status/" ++ tw.id }

/-- The function `fetchTwitterMentions`, as a pure function of the pages the upstream
source serves: accumulate rows over the followed pages, join tweets to
authors, and drop the `"unknown"`-author records. -/
def fetchTwitterMentions (pages : List Page) : List Tweet :=
  let acc := collectPages pages 0
  (acc.1.map (processTweet acc.2)).filter (fun t => decide (t.username ≠ "unknown"))

/-- The merge step of `fetchAllMentionsHistorical` / `fetchLatestMentionsLive`:
ids already in the store are dropped from the batch, the remainder is appended. -/
def mergeTweets (stored batch : List Tweet) : List Tweet :=
  stored ++ batch.filter (fun t => decide (t.id ∉ stored.map Tweet.id))

/-- The `impactScore` of a record inside `calculateUserScore`:
`follower_count * 0.001 + likes + retweets * 2`. -/
def impactScore (t : Tweet) : ℚ :=
  t.follower_count * (1 / 1000) + t.likes + t.retweets * 2

/-- The `freshnessMultiplier` for the record at 0-based recency rank `i`. -/
def freshnessMultiplier (i : ℕ) : ℚ :=
  if i = 0 then 3 else if i = 1 then 2 else 1

/-- The `decayFactor` for the record at 0-based recency rank `i`. -/
def decayFactor (i : ℕ) : ℚ :=
  if i = 0 then 1 else if i = 1 then 1 / 2 else 1 / 4

/-- The scoring loop of `calculateUserScore`: starting at rank `i`, sum
`impactScore * freshnessMultiplier * decayFactor` over the list. -/
def calcLoop : ℕ → List Tweet → ℚ
  | _, [] => 0
  | i, t :: ts => impactScore t * freshnessMultiplier i * decayFactor i + calcLoop (i + 1) ts

/-- The same rank-weighted sum on bare impact values (the code's loop with
the per-record impact abstracted out). -/
def rankScoreAux : ℕ → List ℚ → ℚ
  | _, [] => 0
  | i, a :: l => a * freshnessMultiplier i * decayFactor i + rankScoreAux (i + 1) l

/-- Rank-weighted sum of a list of impact values assigned to recency ranks
0, 1, 2, …  (weight `3` at rank 0, `2 * 0.5 = 1` at rank 1, `0.25` beyond). -/
def rankScore (impacts : List ℚ) : ℚ := rankScoreAux 0 impacts

/-- Stable descending sort by `created_at`
(`[...userTweets].sort((a, b) => dateB - dateA)`). -/
def sortTweetsDesc (ts : List Tweet) : List Tweet :=
  ts.insertionSort (fun a b => b.created_at ≤ a.created_at)

/-- The consistency-bonus multiplier of `calculateUserScore`:
`username && previousWeekUsers.includes(username) ? 1.25 : 1`, where
`username = userTweets[0]?.username` (of the unsorted list) and an empty
string is falsy in JavaScript. -/
def consistencyMultiplier (userTweets : List Tweet) (previousWeekUsers : List String) : ℚ :=
  match userTweets.head? with
  | none => 1
  | some t => if t.username ≠ "" ∧ t.username ∈ previousWeekUsers then 5 / 4 else 1

/-- The scorer `calculateUserScore(userTweets, previousWeekUsers)`. -/
def calculateUserScore (userTweets : List Tweet) (previousWeekUsers : List String) : ℚ :=
  calcLoop 0 (sortTweetsDesc userTweets) * consistencyMultiplier userTweets previousWeekUsers

/-- The viral formula `likes + retweets * 2`. -/
def viralScore (t : Tweet) : ℚ := t.likes + t.retweets * 2

/-- The `reduce` used for both `topTweet` and `mostViralTweet`:
`(best, current) => current.likes + current.retweets*2 > best.likes + best.retweets*2 ? current : best`
(a JavaScript `reduce` without seed on `t :: ts` folds from `t`). -/
def viralReduce (t : Tweet) (ts : List Tweet) : Tweet :=
  ts.foldl (fun best current =>
    if viralScore best < viralScore current then current else best) t

/-- The guard `isValidTweet`: in the typed model `id` is always a string, so validity
is `username` being a non-empty string other than `"unknown"`. -/
def isValidTweet (t : Tweet) : Bool :=
  decide (t.username ≠ "unknown") && decide (t.username ≠ "")

/-- The `[...new Set(xs)]` conversion: order-preserving deduplication keeping first
occurrences. -/
def setDedup (xs : List String) : List String :=
  xs.foldl (fun acc u => if u ∈ acc then acc else acc ++ [u]) []

/-- One step of grouping `tweetsByUser[tweet.username].push(tweet)` over an
insertion-ordered association list (JavaScript object keys iterate in
insertion order for string keys). -/
def addToGroups (acc : List (String × List Tweet)) (t : Tweet) : List (String × List Tweet) :=
  if t.username ∈ acc.map Prod.fst then
    acc.map (fun p => if p.1 = t.username then (p.1, p.2 ++ [t]) else p)
  else
    acc ++ [(t.username, [t])]

/-- Group the (validity-filtered) current-week records by `username`. -/
def groupByUser (ts : List Tweet) : List (String × List Tweet) :=
  ts.foldl addToGroups []

/-- The `interface UserStats` of the source (`lastActive` as epoch value). -/
structure UserStats where
  username : String
  totalScore : ℚ
  tweetCount : ℕ
  avgLikes : ℚ
  avgRetweets : ℚ
  topTweet : Tweet
  lastActive : ℤ
  deriving DecidableEq, Repr

/-- The per-group body of the `Object.entries(tweetsByUser).map` in
`scoreAndStore`; a group with no tweets yields `null` (`none`). -/
def userStatsFor (username : String) (tweets : List Tweet)
    (previousWeekUsers : List String) : Option UserStats :=
  match tweets with
  | [] => none
  | t :: ts =>
    some
      { username := username
        totalScore := calculateUserScore (t :: ts) previousWeekUsers
        tweetCount := (t :: ts).length
        avgLikes := ((t :: ts).map Tweet.likes).sum / (t :: ts).length
        avgRetweets := ((t :: ts).map Tweet.retweets).sum / (t :: ts).length
        topTweet := viralReduce t ts
        lastActive := t.created_at }

/-- The `interface LeaderboardData` of the source. -/
structure LeaderboardData where
  week : String
  users : List UserStats
  totalTweets : ℕ
  mostViralTweet : Tweet
  deriving DecidableEq, Repr

/-- The placeholder record of the (unreachable) empty-window branch of the
`mostViralTweet` computation. -/
def dummyTweet : Tweet :=
  { id := "dummy", username := "none", follower_count := 0, created_at := 0
    likes := 0, retweets := 0, text := "No tweets this week", url := "" }

/-- The pure core of `scoreAndStore`: from the current-week and prior-week
record slices and the canonical week key, build the leaderboard snapshot
(`none` when the current week is empty, mirroring the early return). -/
def buildSnapshot (currentWeekTweets previousWeekTweets : List Tweet)
    (weekKey : String) : Option LeaderboardData :=
  match currentWeekTweets with
  | [] => none
  | c :: cs =>
    let previousWeekUsers := setDedup (previousWeekTweets.map Tweet.username)
    let groups := groupByUser ((c :: cs).filter isValidTweet)
    let stats :=
      (groups.filterMap (fun p => userStatsFor p.1 p.2 previousWeekUsers)).filter
        (fun s => decide (0 < s.totalScore))
    let ranked := stats.insertionSort (fun a b => b.totalScore ≤ a.totalScore)
    some
      { week := weekKey
        users := ranked
        totalTweets := (c :: cs).length
        mostViralTweet := viralReduce c cs }

/-- The lookup `data.leaderboards.findIndex(lb => lb.week === newLb.week)`. -/
def findWeekIdx (w : String) : List LeaderboardData → Option ℕ
  | [] => none
  | lb :: rest => if lb.week = w then some 0 else (findWeekIdx w rest).map (· + 1)

/-- The snapshot-store update of `scoreAndStore`: replace the snapshot with
the same week key in place if one exists, otherwise append; then
`slice(-8)` (drop the oldest-in-array entries beyond 8). -/
def updateLeaderboards (lbs : List LeaderboardData) (nl : LeaderboardData) :
    List LeaderboardData :=
  let replaced :=
    match findWeekIdx nl.week lbs with
    | some i => lbs.set i nl
    | none => lbs ++ [nl]
  replaced.drop (replaced.length - 8)

/-! ### Concrete inputs used by the worked example, witnesses and counterexamples -/

/-- First record of the spec's worked example: followers 1000, likes 10,
reposts 5, newest (`created_at = 3`). -/
def tC1a : Tweet :=
  { id := "1", username := "A", follower_count := 1000, created_at := 3
    likes := 10, retweets := 5, text := "", url := "" }

/-- Second record of the worked example: one like (`created_at = 2`). -/
def tC1b : Tweet :=
  { id := "2", username := "A", follower_count := 0, created_at := 2
    likes := 1, retweets := 0, text := "", url := "" }

/-- Third record of the worked example: all zero (`created_at = 1`). -/
def tC1c : Tweet :=
  { id := "3", username := "A", follower_count := 0, created_at := 1
    likes := 0, retweets := 0, text := "", url := "" }

/-- The worked example's record list, sorted newest-first in that order. -/
def exampleTweets : List Tweet := [tC1a, tC1b, tC1c]

/-- A record whose author handle is the empty string (JavaScript-falsy). -/
def tEmptyHandle : Tweet :=
  { id := "c2", username := "", follower_count := 0, created_at := 1
    likes := 4, retweets := 0, text := "", url := "" }

/-- A record with a normal handle, used to witness the consistency-bonus ratio. -/
def tBob : Tweet :=
  { id := "w", username := "bob", follower_count := 0, created_at := 1
    likes := 4, retweets := 0, text := "", url := "" }

/-- An older record of user u (`created_at = 1`), first in grouping order. -/
def tOldC7 : Tweet :=
  { id := "o", username := "u", follower_count := 0, created_at := 1
    likes := 3, retweets := 0, text := "", url := "" }

/-- A newer record of user u (`created_at = 2`), second in grouping order. -/
def tNewC7 : Tweet :=
  { id := "n", username := "u", follower_count := 0, created_at := 2
    likes := 1, retweets := 0, text := "", url := "" }

/-- A raw tweet row that the upstream source may serve on two pages. -/
def rtDup : RawTweet :=
  { id := "x", author_id := "u1", created_at := 1
    like_count := some 2, retweet_count := some 0, text := "hi" }

/-- The author row resolving `rtDup`. -/
def ruDup : RawUser := { id := "u1", username := "bob", follower_count := some 10 }

/-- First page: carries `rtDup` and its author, with a continuation cursor. -/
def pgDup1 : Page := { data := [rtDup], users := [ruDup], hasNext := true }

/-- Second page: carries `rtDup` again (the same id), no cursor. -/
def pgDup2 : Page := { data := [rtDup], users := [], hasNext := false }

/-- A raw tweet row with id distinct from `rtDup2w`. -/
def rtW1 : RawTweet :=
  { id := "w1", author_id := "u1", created_at := 1
    like_count := some 1, retweet_count := none, text := "" }

/-- A raw tweet row with id distinct from `rtW1`. -/
def rtW2 : RawTweet :=
  { id := "w2", author_id := "u1", created_at := 2
    like_count := none, retweet_count := some 3, text := "" }

/-- A single page carrying two rows with distinct ids. -/
def pgW : Page := { data := [rtW1, rtW2], users := [ruDup], hasNext := false }

/-- A scorable record of user alice in the C9 window. -/
def tValC9 : Tweet :=
  { id := "a", username := "alice", follower_count := 0, created_at := 10
    likes := 1, retweets := 0, text := "", url := "" }

/-- A record with unresolved author (excluded from scoring) that nevertheless
has the highest viral score of the C9 window. -/
def tUnkC9 : Tweet :=
  { id := "x", username := "unknown", follower_count := 0, created_at := 11
    likes := 100, retweets := 7, text := "", url := "" }

/-- A stored snapshot for week 2026-01-04. -/
def lbOld : LeaderboardData :=
  { week := "2026-01-04", users := [], totalTweets := 0, mostViralTweet := dummyTweet }

/-- A recomputed snapshot for the same week 2026-01-04. -/
def lbNew : LeaderboardData :=
  { week := "2026-01-04", users := [], totalTweets := 5, mostViralTweet := dummyTweet }

/-! ### Helper lemmas -/

lemma freshnessMultiplier_of_two_le {n : ℕ} (h : 2 ≤ n) : freshnessMultiplier n = 1 := by
  unfold freshnessMultiplier
  rw [if_neg (by omega), if_neg (by omega)]

lemma decayFactor_of_two_le {n : ℕ} (h : 2 ≤ n) : decayFactor n = 1 / 4 := by
  unfold decayFactor
  rw [if_neg (by omega), if_neg (by omega)]

/-- Beyond rank 1 every record contributes its impact times `1 * 0.25`. -/
lemma rankScoreAux_of_two_le (l : List ℚ) : ∀ n, 2 ≤ n → rankScoreAux n l = l.sum / 4 := by
  induction l with
  | nil => intro n h; simp [rankScoreAux]
  | cons a l ih =>
    intro n h
    rw [rankScoreAux, freshnessMultiplier_of_two_le h, decayFactor_of_two_le h,
      ih (n + 1) (by omega), List.sum_cons]
    ring

/-- Closed form of the rank-weighted sum on a list with at least two entries. -/
lemma rankScore_cons_cons (a b : ℚ) (l : List ℚ) :
    rankScore (a :: b :: l) = 3 * a + b + l.sum / 4 := by
  unfold rankScore
  rw [rankScoreAux, rankScoreAux, rankScoreAux_of_two_le l 2 (le_refl 2)]
  simp [freshnessMultiplier, decayFactor]
  ring

/-- The scoring loop of `calculateUserScore` is the rank-weighted sum of the
per-record impacts. -/
lemma calcLoop_eq_rankScoreAux (ts : List Tweet) :
    ∀ n, calcLoop n ts = rankScoreAux n (ts.map impactScore) := by
  induction ts with
  | nil => intro n; rfl
  | cons t ts ih => intro n; rw [List.map_cons, calcLoop, rankScoreAux, ih (n + 1)]

/-- Elements of `pre ++ r :: post` score at most `r` when `pre` is strictly
below and `post` weakly below. -/
lemma viralScore_le_of_parts (r : Tweet) (pre post : List Tweet)
    (hpre : ∀ u ∈ pre, viralScore u < viralScore r)
    (hpost : ∀ u ∈ post, viralScore u ≤ viralScore r) :
    ∀ u ∈ pre ++ r :: post, viralScore u ≤ viralScore r := by
  intro u hu
  rcases List.mem_append.1 hu with h | h
  · exact le_of_lt (hpre u h)
  · rcases List.mem_cons.1 h with h | h
    · exact le_of_eq (by rw [h])
    · exact hpost u h

/-- The seedless `reduce` with strict `>` picks the first maximal element:
the list splits around the result, with everything before it strictly below
and everything after it weakly below. -/
lemma viralReduce_split (t : Tweet) (ts : List Tweet) :
    ∃ pre post, t :: ts = pre ++ viralReduce t ts :: post ∧
      (∀ u ∈ pre, viralScore u < viralScore (viralReduce t ts)) ∧
      (∀ u ∈ post, viralScore u ≤ viralScore (viralReduce t ts)) := by
  induction ts generalizing t with
  | nil => exact ⟨[], [], rfl, by simp, by simp⟩
  | cons u us ih =>
    by_cases h : viralScore t < viralScore u
    · have hres : viralReduce t (u :: us) = viralReduce u us := by
        simp only [viralReduce, List.foldl_cons, if_pos h]
      rw [hres]
      obtain ⟨pre, post, hsplit, hpre, hpost⟩ := ih u
      have hle : viralScore u ≤ viralScore (viralReduce u us) := by
        have hall := viralScore_le_of_parts (viralReduce u us) pre post hpre hpost
        exact hall u (hsplit ▸ List.mem_cons_self u us)
      refine ⟨t :: pre, post, ?_, ?_, hpost⟩
      · rw [List.cons_append, ← hsplit]
      · intro x hx
        rcases List.mem_cons.1 hx with rfl | hx
        · exact lt_of_lt_of_le h hle
        · exact hpre x hx
    · have hres : viralReduce t (u :: us) = viralReduce t us := by
        simp only [viralReduce, List.foldl_cons, if_neg h]
      rw [hres]
      have hut : viralScore u ≤ viralScore t := not_lt.1 h
      obtain ⟨pre, post, hsplit, hpre, hpost⟩ := ih t
      cases pre with
      | nil =>
        simp only [List.nil_append] at hsplit
        obtain ⟨h1, h2⟩ := List.cons.injEq .. ▸ hsplit
        refine ⟨[], u :: us, ?_, by simp, ?_⟩
        · rw [List.nil_append, ← h1]
        · intro x hx
          rcases List.mem_cons.1 hx with rfl | hx
          · rw [← h1]; exact hut
          · exact hpost x (h2 ▸ hx)
      | cons p pre2 =>
        rw [List.cons_append] at hsplit
        obtain ⟨h1, h2⟩ := List.cons.injEq .. ▸ hsplit
        have htr : viralScore t < viralScore (viralReduce t us) := by
          have hp := hpre p (List.mem_cons_self p pre2)
          rwa [← h1] at hp
        refine ⟨t :: u :: pre2, post, ?_, ?_, hpost⟩
        · conv_lhs => rw [h2]
          simp
        · intro x hx
          rcases List.mem_cons.1 hx with rfl | hx
          · exact htr
          · rcases List.mem_cons.1 hx with rfl | hx
            · exact lt_of_le_of_lt hut htr
            · exact hpre x (List.mem_cons_of_mem p hx)

/-- The reduce's result is one of the list's elements. -/
lemma viralReduce_mem (t : Tweet) (ts : List Tweet) : viralReduce t ts ∈ t :: ts := by
  obtain ⟨pre, post, hsplit, -, -⟩ := viralReduce_split t ts
  rw [hsplit]
  exact List.mem_append_right pre (List.mem_cons_self _ _)

/-- The reduce's result has maximal viral score. -/
lemma viralReduce_le (t : Tweet) (ts : List Tweet) :
    ∀ u ∈ t :: ts, viralScore u ≤ viralScore (viralReduce t ts) := by
  obtain ⟨pre, post, hsplit, hpre, hpost⟩ := viralReduce_split t ts
  intro u hu
  rw [hsplit] at hu
  exact viralScore_le_of_parts _ pre post hpre hpost u hu

/-- Every id of the batch is present in the merged store. -/
lemma mergeTweets_id_mem (stored batch : List Tweet) :
    ∀ t ∈ batch, t.id ∈ (mergeTweets stored batch).map Tweet.id := by
  intro t ht
  unfold mergeTweets
  rw [List.map_append]
  by_cases h : t.id ∈ stored.map Tweet.id
  · exact List.mem_append_left _ h
  · refine List.mem_append_right _ (List.mem_map_of_mem Tweet.id ?_)
    exact List.mem_filter.2 ⟨ht, decide_eq_true h⟩

/-- The join step preserves the raw tweet's id. -/
lemma processTweet_id (us : List RawUser) (rt : RawTweet) :
    (processTweet us rt).id = rt.id := by
  unfold processTweet
  split <;> rfl

/-- A week absent from the list is not found by `findIndex`. -/
lemma findWeekIdx_eq_none (w : String) (l : List LeaderboardData)
    (h : ∀ lb ∈ l, lb.week ≠ w) : findWeekIdx w l = none := by
  induction l with
  | nil => rfl
  | cons lb rest ih =>
    rw [findWeekIdx, if_neg (h lb (List.mem_cons_self lb rest)),
      ih fun x hx => h x (List.mem_cons_of_mem lb hx)]
    rfl

/-- Conversely, a `findIndex` miss means the week is absent. -/
lemma findWeekIdx_none_forall (w : String) (l : List LeaderboardData)
    (h : findWeekIdx w l = none) : ∀ lb ∈ l, lb.week ≠ w := by
  induction l with
  | nil => intro lb hlb; cases hlb
  | cons lb rest ih =>
    intro x hx
    rw [findWeekIdx] at h
    by_cases hw : lb.week = w
    · rw [if_pos hw] at h; cases h
    · rw [if_neg hw] at h
      rcases List.mem_cons.1 hx with rfl | hx
      · exact hw
      · exact ih (Option.map_eq_none.1 h) x hx

/-- With no match in the prefix, `findIndex` returns the first match's index. -/
lemma findWeekIdx_append_first (pre : List LeaderboardData) (old : LeaderboardData)
    (post : List LeaderboardData) (w : String)
    (hpre : ∀ lb ∈ pre, lb.week ≠ w) (hw : old.week = w) :
    findWeekIdx w (pre ++ old :: post) = some pre.length := by
  induction pre with
  | nil => simp [findWeekIdx, hw]
  | cons p pre2 ih =>
    rw [List.cons_append, findWeekIdx, if_neg (hpre p (List.mem_cons_self p pre2)),
      ih fun x hx => hpre x (List.mem_cons_of_mem p hx)]
    rfl

/-- A `findIndex` hit splits the list at the found position. -/
lemma findWeekIdx_some_split (w : String) (l : List LeaderboardData) :
    ∀ i, findWeekIdx w l = some i →
      ∃ pre old post, l = pre ++ old :: post ∧ pre.length = i ∧ old.week = w := by
  induction l with
  | nil => intro i h; cases h
  | cons lb rest ih =>
    intro i h
    rw [findWeekIdx] at h
    by_cases hw : lb.week = w
    · rw [if_pos hw] at h
      cases h
      exact ⟨[], lb, rest, rfl, rfl, hw⟩
    · rw [if_neg hw] at h
      obtain ⟨j, hj, hji⟩ := Option.map_eq_some'.1 h
      obtain ⟨pre, old, post, hsplit, hlen, hweek⟩ := ih j hj
      exact ⟨lb :: pre, old, post, by rw [hsplit, List.cons_append],
        by rw [List.length_cons, hlen, hji], hweek⟩

/-- Setting at the length of the prefix replaces the element after it. -/
lemma set_append_length {α : Type} (pre : List α) (old nl : α) (post : List α) :
    (pre ++ old :: post).set pre.length nl = pre ++ nl :: post := by
  induction pre with
  | nil => rfl
  | cons p pre2 ih => rw [List.cons_append, List.length_cons, List.set_cons_succ, ih]; rfl

/-! ### Claims -/

/-- C1: on the spec's worked example — records (1000,10,5), (0,1,0), (0,0,0)
sorted newest-first in that order — `calculateUserScore` returns 64 whenever
the handle is not in the prior-week user set and 80 whenever it is. -/
theorem calculateUserScore_worked_example (prev : List String) :
    (("A" : String) ∉ prev → calculateUserScore exampleTweets prev = 64) ∧
    (("A" : String) ∈ prev → calculateUserScore exampleTweets prev = 80) := by
  have hraw : calcLoop 0 (sortTweetsDesc exampleTweets) = 64 := by
    norm_num [sortTweetsDesc, List.insertionSort, List.orderedInsert, calcLoop,
      impactScore, freshnessMultiplier, decayFactor, exampleTweets, tC1a, tC1b, tC1c]
  have hA : ("A" : String) ≠ "" := by decide
  constructor <;> intro h
  · have hm : consistencyMultiplier exampleTweets prev = 1 := by
      simp [consistencyMultiplier, exampleTweets, tC1a, h]
    unfold calculateUserScore
    rw [hraw, hm]
    norm_num
  · have hm : consistencyMultiplier exampleTweets prev = 5 / 4 := by
      simp [consistencyMultiplier, exampleTweets, tC1a, h, hA]
    unfold calculateUserScore
    rw [hraw, hm]
    norm_num

/-- C2 counterexample: for a (non-empty) record list whose handle is the
empty string, membership of that handle in the prior-week set does NOT
multiply the score by 1.25 — the JavaScript truthiness guard `username &&`
skips the bonus — refuting the claim for arbitrary record lists. -/
theorem consistency_bonus_empty_handle_counterexample :
    ("" : String) ∈ [""] ∧ ("" : String) ∉ ([] : List String) ∧
    calculateUserScore [tEmptyHandle] [""] ≠
      5 / 4 * calculateUserScore [tEmptyHandle] [] := by
  refine ⟨List.mem_singleton.2 rfl, List.not_mem_nil _, ?_⟩
  norm_num [calculateUserScore, sortTweetsDesc, List.insertionSort, List.orderedInsert,
    calcLoop, impactScore, freshnessMultiplier, decayFactor, consistencyMultiplier,
    tEmptyHandle]

/-- C2 amended: for any non-empty record list whose first record's handle is
non-empty, `calculateUserScore` with the handle present in the prior-week set
is exactly 1.25 times its value with the handle absent. -/
theorem consistency_bonus_ratio (t : Tweet) (rest : List Tweet) (p1 p2 : List String)
    (hne : t.username ≠ "") (h1 : t.username ∈ p1) (h2 : t.username ∉ p2) :
    calculateUserScore (t :: rest) p1 = 5 / 4 * calculateUserScore (t :: rest) p2 := by
  unfold calculateUserScore consistencyMultiplier
  simp only [List.head?_cons]
  rw [if_pos ⟨hne, h1⟩, if_neg fun hc => h2 hc.2]
  ring

theorem consistency_bonus_ratio_witness :
    calculateUserScore [tBob] [("bob")] = 5 / 4 * calculateUserScore [tBob] [] :=
  consistency_bonus_ratio tBob [] [("bob")] [] (by decide) (by decide) (by decide)

/-- C3 counterexample: impact multiset {10, 10, 10, 0}; the arrangement with
the distinguished highest-impact record (value 10) at rank 0 but rest order
(0, 10, 10) scores 35, strictly below the reordering (10, 10, ·, 0) that puts
that same record at rank 2 (score 42.5) — refuting the claim for arbitrary
orderings of the rest. -/
theorem freshness_reorder_counterexample :
    (∀ x ∈ ([0, 10, 10] : List ℚ), x ≤ (10 : ℚ)) ∧
    (([10, 10, 0] : List ℚ).Perm [0, 10, 10]) ∧
    rankScore ((10 : ℚ) :: [0, 10, 10]) < rankScore ([10, 10] ++ (10 : ℚ) :: [0]) := by
  refine ⟨?_, ?_, ?_⟩
  · intro x hx
    simp only [List.mem_cons, List.not_mem_nil, or_false] at hx
    rcases hx with rfl | rfl | rfl <;> norm_num
  · exact (List.Perm.cons 10 (List.Perm.swap 0 10 [])).trans (List.Perm.swap 0 10 [10])
  · norm_num [rankScore, rankScoreAux, freshnessMultiplier, decayFactor]

/-- C3 amended: moving the highest-impact record from rank 0 to any rank ≥ 2
never increases the rank-weighted score, provided the records at ranks 1 and 2
move up to ranks 0 and 1 (the remaining impacts may be permuted arbitrarily
around the moved record). -/
theorem freshness_monotone_amended (m x1 x2 : ℚ) (rest zs : List ℚ)
    (h1 : x1 ≤ m) (h2 : x2 ≤ m) (hperm : zs.Perm (m :: rest)) :
    rankScore (x1 :: x2 :: zs) ≤ rankScore (m :: x1 :: x2 :: rest) := by
  rw [rankScore_cons_cons, rankScore_cons_cons, hperm.sum_eq]
  simp only [List.sum_cons]
  linarith

theorem freshness_monotone_amended_witness :
    rankScore [(0 : ℚ), 0, 1] ≤ rankScore [(1 : ℚ), 0, 0] :=
  freshness_monotone_amended 1 0 0 [] [1] (by norm_num) (by norm_num) (List.Perm.refl _)

/-- C4 counterexample: the Fetcher can serve the same id on two pages
(`pgDup1`, `pgDup2`); the Merger filters only against the ids already in the
store, so merging that batch into the empty store appends the record twice
and the stored ids are not pairwise distinct. -/
theorem merge_dup_batch_counterexample :
    ¬ ((mergeTweets [] (fetchTwitterMentions [pgDup1, pgDup2])).map Tweet.id).Nodup := by
  decide

/-- C4 amended: the merged store's ids are pairwise distinct provided the
store's ids and the fetched batch's ids are each pairwise distinct (the
Merger never re-appends an id already stored, but it does not deduplicate
inside the batch). -/
theorem merge_preserves_nodup_ids (stored batch : List Tweet)
    (h1 : (stored.map Tweet.id).Nodup) (h2 : (batch.map Tweet.id).Nodup) :
    ((mergeTweets stored batch).map Tweet.id).Nodup := by
  unfold mergeTweets
  rw [List.map_append, List.nodup_append]
  refine ⟨h1, ((List.filter_sublist batch).map Tweet.id).nodup h2, ?_⟩
  intro a ha hb
  obtain ⟨t, htmem, hid⟩ := List.mem_map.1 hb
  have hdec := (List.mem_filter.1 htmem).2
  rw [decide_eq_true_eq] at hdec
  exact hdec (hid ▸ ha)

theorem merge_preserves_nodup_ids_witness :
    ((mergeTweets [tC1a] [tBob]).map Tweet.id).Nodup :=
  merge_preserves_nodup_ids [tC1a] [tBob] (by decide) (by decide)

/-- C5 counterexample: a single `fetchTwitterMentions` call whose upstream
pages repeat a tweet id returns that id twice — the call does not
deduplicate within itself. -/
theorem fetch_dup_across_pages_counterexample :
    ¬ ((fetchTwitterMentions [pgDup1, pgDup2]).map Tweet.id).Nodup := by
  decide

/-- C5 amended: the returned list has pairwise-distinct ids provided the raw
tweet rows accumulated over the followed pages have pairwise-distinct ids
(the call maps and filters but never deduplicates). -/
theorem fetch_nodup_of_raw_nodup (pages : List Page)
    (h : ((collectPages pages 0).1.map RawTweet.id).Nodup) :
    ((fetchTwitterMentions pages).map Tweet.id).Nodup := by
  show ((((collectPages pages 0).1.map (processTweet (collectPages pages 0).2)).filter
      (fun t => decide (t.username ≠ "unknown"))).map Tweet.id).Nodup
  apply ((List.filter_sublist _).map Tweet.id).nodup
  rw [List.map_map]
  have hcomp : (Tweet.id ∘ processTweet (collectPages pages 0).2) = RawTweet.id :=
    funext fun rt => processTweet_id _ rt
  rw [hcomp]
  exact h

theorem fetch_nodup_of_raw_nodup_witness :
    ((fetchTwitterMentions [pgW]).map Tweet.id).Nodup :=
  fetch_nodup_of_raw_nodup [pgW] (by decide)

/-- C6: merging the same fetched batch into the store twice yields exactly
the record list of merging it once — after the first merge every id of the
batch is present, so the second merge appends nothing. -/
theorem merge_idempotent (stored batch : List Tweet) :
    mergeTweets (mergeTweets stored batch) batch = mergeTweets stored batch := by
  have h : batch.filter
      (fun t => decide (t.id ∉ (mergeTweets stored batch).map Tweet.id)) = [] := by
    rw [List.filter_eq_nil_iff]
    intro t ht
    simp only [decide_eq_true_eq]
    exact fun hc => hc (mergeTweets_id_mem stored batch t ht)
  calc mergeTweets (mergeTweets stored batch) batch
      = mergeTweets stored batch ++ batch.filter
          (fun t => decide (t.id ∉ (mergeTweets stored batch).map Tweet.id)) := rfl
    _ = mergeTweets stored batch ++ [] := by rw [h]
    _ = mergeTweets stored batch := List.append_nil _

/-- C7 counterexample: grouping order [older, newer] for user u yields a
UserStats whose `lastActive` is the FIRST group record's `created_at` (1),
not the maximal `created_at` (2) of the user's most recent record. -/
theorem lastActive_not_most_recent_counterexample :
    (buildSnapshot [tOldC7, tNewC7] [] ("wk")).map
      (fun lb => lb.users.map UserStats.lastActive) = some [1] ∧
    tNewC7 ∈ [tOldC7, tNewC7] ∧ tNewC7.created_at = 2 ∧
    (∀ t ∈ [tOldC7, tNewC7], t.created_at ≤ 2) := by
  refine ⟨?_, by simp, rfl, ?_⟩
  · norm_num [buildSnapshot, groupByUser, addToGroups, setDedup, isValidTweet, userStatsFor,
      calculateUserScore, sortTweetsDesc, List.insertionSort, List.orderedInsert, calcLoop,
      impactScore, freshnessMultiplier, decayFactor, consistencyMultiplier, viralReduce,
      viralScore, tOldC7, tNewC7, List.filter, List.filterMap]
  · intro t ht
    simp only [List.mem_cons, List.not_mem_nil, or_false] at ht
    rcases ht with rfl | rfl <;> decide

/-- C7 amended: `lastActive` is the `created_at` of the FIRST record in the
user's grouping order; when the group is ordered newest-first (the first
record has maximal `created_at`), it is the maximal `created_at` of the
user's records. -/
theorem lastActive_head_amended (username : String) (t : Tweet) (ts : List Tweet)
    (prev : List String) (hsorted : ∀ u ∈ ts, u.created_at ≤ t.created_at) :
    ∃ m : ℤ, (userStatsFor username (t :: ts) prev).map UserStats.lastActive = some m ∧
      m ∈ (t :: ts).map Tweet.created_at ∧ ∀ c ∈ (t :: ts).map Tweet.created_at, c ≤ m := by
  refine ⟨t.created_at, rfl,
    List.mem_map_of_mem Tweet.created_at (List.mem_cons_self t ts), ?_⟩
  intro c hc
  obtain ⟨u, hu, rfl⟩ := List.mem_map.1 hc
  rcases List.mem_cons.1 hu with rfl | hu
  · exact le_refl _
  · exact hsorted u hu

theorem lastActive_head_amended_witness :
    ∃ m : ℤ, (userStatsFor ("u") [tNewC7, tOldC7] []).map UserStats.lastActive = some m ∧
      m ∈ ([tNewC7, tOldC7]).map Tweet.created_at ∧
      ∀ c ∈ ([tNewC7, tOldC7]).map Tweet.created_at, c ≤ m :=
  lastActive_head_amended ("u") tNewC7 [tOldC7] [] (by
    intro u hu
    simp only [List.mem_cons, List.not_mem_nil, or_false] at hu
    subst hu
    decide)

/-- C9: the snapshot's `mostViralTweet` is computed over the entire
current-week record list, before validity filtering and score-based
exclusion: any record that strictly maximizes `likes + 2*retweets` in the
window is selected, whatever its author's handle or score. -/
theorem mostViral_independent_of_inclusion (cur prevTweets : List Tweet) (wk : String)
    (t : Tweet) (ht : t ∈ cur)
    (hmax : ∀ u ∈ cur, u ≠ t → viralScore u < viralScore t) :
    (buildSnapshot cur prevTweets wk).map LeaderboardData.mostViralTweet = some t := by
  cases cur with
  | nil => cases ht
  | cons c cs =>
    have hr : viralReduce c cs = t := by
      by_contra hne
      have hlt : viralScore (viralReduce c cs) < viralScore t :=
        hmax _ (viralReduce_mem c cs) hne
      have hle : viralScore t ≤ viralScore (viralReduce c cs) := viralReduce_le c cs t ht
      exact absurd hle (not_le.2 hlt)
    simp [buildSnapshot, hr]

theorem mostViral_independent_of_inclusion_witness :
    (buildSnapshot [tValC9, tUnkC9] [] ("wk")).map LeaderboardData.mostViralTweet
      = some tUnkC9 ∧
    (buildSnapshot [tValC9, tUnkC9] [] ("wk")).map
      (fun lb => lb.users.map UserStats.username) = some [("alice")] := by
  constructor
  · refine mostViral_independent_of_inclusion [tValC9, tUnkC9] [] ("wk") tUnkC9 (by simp) ?_
    intro u hu hne
    simp only [List.mem_cons, List.not_mem_nil, or_false] at hu
    rcases hu with rfl | rfl
    · norm_num [viralScore, tValC9, tUnkC9]
    · exact absurd rfl hne
  · norm_num [buildSnapshot, groupByUser, addToGroups, setDedup, isValidTweet, userStatsFor,
      calculateUserScore, sortTweetsDesc, List.insertionSort, List.orderedInsert, calcLoop,
      impactScore, freshnessMultiplier, decayFactor, consistencyMultiplier, viralReduce,
      viralScore, tValC9, tUnkC9, List.filter, List.filterMap]

/-- C10: the shared seedless `reduce` with strict `>` — used for both the
window's `mostViralTweet` and each group's `topTweet` — returns the FIRST
record attaining the maximal viral score: the list splits around the result
with every earlier record strictly below it and every later one at most it. -/
theorem viralReduce_first_maximal (t : Tweet) (ts : List Tweet) :
    ∃ pre post, t :: ts = pre ++ viralReduce t ts :: post ∧
      (∀ u ∈ pre, viralScore u < viralScore (viralReduce t ts)) ∧
      (∀ u ∈ post, viralScore u ≤ viralScore (viralReduce t ts)) :=
  viralReduce_split t ts

/-- The snapshot-store update in the branch where the week key is found. -/
lemma updateLeaderboards_eq_set (lbs : List LeaderboardData) (nl : LeaderboardData) (i : ℕ)
    (h : findWeekIdx nl.week lbs = some i) :
    updateLeaderboards lbs nl = (lbs.set i nl).drop ((lbs.set i nl).length - 8) := by
  simp only [updateLeaderboards, h]

/-- The snapshot-store update in the branch where the week key is new. -/
lemma updateLeaderboards_eq_append (lbs : List LeaderboardData) (nl : LeaderboardData)
    (h : findWeekIdx nl.week lbs = none) :
    updateLeaderboards lbs nl = (lbs ++ [nl]).drop ((lbs ++ [nl]).length - 8) := by
  simp only [updateLeaderboards, h]

/-- C8: with at most one stored snapshot per week key and at most 8 stored
snapshots, the update keeps week keys pairwise distinct, keeps the length at
most 8, replaces an existing week's snapshot at its array position leaving
the other snapshots' order untouched, and appends a new week at the end
dropping oldest-in-array entries first when trimming. -/
theorem snapshot_update_invariants (lbs : List LeaderboardData) (nl : LeaderboardData)
    (hN : (lbs.map LeaderboardData.week).Nodup) (hlen : lbs.length ≤ 8) :
    ((updateLeaderboards lbs nl).map LeaderboardData.week).Nodup ∧
    (updateLeaderboards lbs nl).length ≤ 8 ∧
    (∀ pre old post, lbs = pre ++ old :: post → old.week = nl.week →
      updateLeaderboards lbs nl = pre ++ nl :: post) ∧
    (nl.week ∉ lbs.map LeaderboardData.week →
      updateLeaderboards lbs nl = (lbs ++ [nl]).drop (lbs.length + 1 - 8)) := by
  have hRnodup : ∀ R : List LeaderboardData, (R.map LeaderboardData.week).Nodup →
      (((R.drop (R.length - 8)).map LeaderboardData.week)).Nodup := by
    intro R hR
    rw [List.map_drop]
    exact (List.drop_sublist _ _).nodup hR
  refine ⟨?_, ?_, ?_, ?_⟩
  · cases hfind : findWeekIdx nl.week lbs with
    | none =>
      rw [updateLeaderboards_eq_append lbs nl hfind]
      apply hRnodup
      rw [List.map_append, List.nodup_append]
      refine ⟨hN, by simp, ?_⟩
      intro a ha hb
      simp only [List.map_cons, List.map_nil, List.mem_singleton] at hb
      subst hb
      obtain ⟨lb, hlb, hw⟩ := List.mem_map.1 ha
      exact findWeekIdx_none_forall nl.week lbs hfind lb hlb hw
    | some i =>
      rw [updateLeaderboards_eq_set lbs nl i hfind]
      apply hRnodup
      obtain ⟨pre, old, post, hsplit, hlenp, hw⟩ := findWeekIdx_some_split nl.week lbs i hfind
      subst hlenp
      rw [hsplit, set_append_length, List.map_append, List.map_cons]
      rw [hsplit, List.map_append, List.map_cons, hw] at hN
      exact hN
  · cases hfind : findWeekIdx nl.week lbs with
    | none =>
      rw [updateLeaderboards_eq_append lbs nl hfind, List.length_drop]
      omega
    | some i =>
      rw [updateLeaderboards_eq_set lbs nl i hfind, List.length_drop]
      omega
  · intro pre old post heq hw
    have hnopre : ∀ lb ∈ pre, lb.week ≠ nl.week := by
      intro lb hlb hweq
      rw [heq, List.map_append, List.map_cons] at hN
      have hdisj := (List.nodup_append.1 hN).2.2
      exact hdisj (List.mem_map_of_mem LeaderboardData.week hlb)
        (by rw [hweq, ← hw]; exact List.mem_cons_self _ _)
    have hfind : findWeekIdx nl.week lbs = some pre.length := by
      rw [heq]
      exact findWeekIdx_append_first pre old post nl.week hnopre hw
    rw [updateLeaderboards_eq_set lbs nl pre.length hfind, heq, set_append_length]
    have hlen2 : (pre ++ nl :: post).length ≤ 8 := by
      have := congrArg List.length heq
      simp only [List.length_append, List.length_cons] at this ⊢
      omega
    rw [Nat.sub_eq_zero_of_le hlen2, List.drop_zero]
  · intro hno
    have hfind : findWeekIdx nl.week lbs = none :=
      findWeekIdx_eq_none nl.week lbs
        (fun lb hlb hw => hno (hw ▸ List.mem_map_of_mem LeaderboardData.week hlb))
    rw [updateLeaderboards_eq_append lbs nl hfind]
    simp [List.length_append]

theorem snapshot_update_invariants_witness :
    (((updateLeaderboards [lbOld] lbNew).map LeaderboardData.week)).Nodup ∧
    (updateLeaderboards [lbOld] lbNew).length ≤ 8 ∧
    (∀ pre old post, [lbOld] = pre ++ old :: post → old.week = lbNew.week →
      updateLeaderboards [lbOld] lbNew = pre ++ lbNew :: post) ∧
    (lbNew.week ∉ ([lbOld]).map LeaderboardData.week →
      updateLeaderboards [lbOld] lbNew
        = ([lbOld] ++ [lbNew]).drop (([lbOld] : List LeaderboardData).length + 1 - 8)) :=
  snapshot_update_invariants [lbOld] lbNew (by decide) (by decide)
